import Mathlib

/-!
Verification of the noserde core (`src/include/noserde.hpp` and the generated
view code pinned by the tests under `src/tests/`) against its natural-language
specification.

The development is a shallow embedding:
* machine bytes are `Nat` values (< 256 on valid inputs);
* byte sequences (pages flattened to their logical image, file contents,
  bitsery streams) are `List Nat`;
* 64-bit machine arithmetic is `Nat` arithmetic reduced `% 2 ^ 64` exactly
  where the C++ computes in `std::uint64_t`;
* fallible operations return `Except io_error`.
-/

namespace Noserde

/-- Models `noserde::io_error` (noserde.hpp, lines 54-62). -/
inductive io_error where
  | open_failed
  | write_failed
  | read_failed
  | invalid_header
  | schema_mismatch
  | payload_size_mismatch
  | truncated_payload
deriving DecidableEq, Repr

/-! ## Endian codec (noserde.hpp, lines 235-296)

`store_le<T>` for an unsigned integer copies the value's little-endian byte
image to the destination (`memcpy` of the native representation on
little-endian hosts, byteswap-then-copy on big-endian hosts; either way the
wire bytes are the little-endian image).  `load_le<T>` re-assembles the value
from the bytes, least-significant byte first.  We model the byte image
produced for a `w`-byte unsigned value and the inverse assembly. -/

/-- Little-endian byte image of the unsigned value `v` truncated to `w` bytes:
byte 0 is the least significant.  Models the wire bytes written by
`store_le<U>` for a `w`-byte unsigned integer `U` (noserde.hpp, lines 277-282). -/
def store_le_u : Nat → Nat → List Nat
  | 0, _ => []
  | w + 1, v => v % 256 :: store_le_u w (v / 256)

/-- Value assembled from `w` little-endian bytes, least-significant first.
Models `load_le<U>` for a `w`-byte unsigned integer `U`
(noserde.hpp, lines 244-251). -/
def load_le_u : Nat → List Nat → Nat
  | 0, _ => 0
  | _ + 1, [] => 0
  | w + 1, b :: rest => b + 256 * load_le_u w rest

/-- Two's-complement representation of the signed value `v` in `w` bytes: the
unsigned bit pattern obtained by `memcpy` from a signed integer into its
unsigned counterpart (noserde.hpp, lines 278-280). -/
def to_unsigned (w : Nat) (v : Int) : Nat :=
  (v % (2 ^ (8 * w))).toNat

/-- Signed value read back from a `w`-byte two's-complement bit pattern: the
`memcpy` of an unsigned bit pattern into the signed integer type
(noserde.hpp, lines 249-250). -/
def to_signed (w : Nat) (n : Nat) : Int :=
  if n < 2 ^ (8 * w - 1) then (n : Int) else (n : Int) - 2 ^ (8 * w)

/-- Wire byte written by `store_le<bool>` (noserde.hpp, line 273). -/
def store_le_bool (b : Bool) : List Nat :=
  [if b then 1 else 0]

/-- Models `load_le<bool>`: any non-zero byte loads as `true`
(noserde.hpp, line 240). -/
def load_le_bool (bytes : List Nat) : Bool :=
  bytes.headD 0 != 0

/-- Overwrite `data` at byte offset `off` with the image `img`, leaving all
other bytes unchanged.  This is the effect of a `memcpy`/`store_le` of
`img.length` bytes at pointer offset `off`. -/
def write_at (off : Nat) (img : List Nat) (data : List Nat) : List Nat :=
  data.take off ++ img ++ data.drop (off + img.length)

/-! ## Tagged-sum views

Modelled from the spec: the generated tagged-sum view code (emitted by the
out-of-scope schema generator) is not under `src/`; only the annotated
schemas and the runtime tests are.  The model follows the spec's concrete
scenarios (spec.md section 8, scenarios 1-2) and the behaviour pinned by the
repository's tests (`src/tests/runtime_tests.cpp` lines 31-78,
`src/tests/runtime_nested_union_tests.cpp` lines 100-113, and
`src/tests/runtime_defaults_tests.cpp`): `emplace` of the alternative with
0-based position `j` stores the 32-bit little-endian discriminant `j` at the
field's tag offset, zeroes the payload region, then writes the alternative's
wire bytes at the payload offset; `index()` loads the stored discriminant.
(The tests assert tag bytes `[0,0,0,0]` with the first alternative live and
`index() == 1` / tag bytes `[1,0,0,0]` after `emplace` of the second.) -/

/-- Tagged-sum `emplace`: store the discriminant of the alternative with
0-based declaration position `alt_idx` (32-bit little-endian at `tag_off`),
zero the `pay_size`-byte payload region, then write the alternative's wire
image `alt_bytes` at `pay_off`. -/
def sum_emplace (tag_off pay_off pay_size alt_idx : Nat) (alt_bytes : List Nat)
    (rec : List Nat) : List Nat :=
  write_at pay_off (alt_bytes ++ List.replicate (pay_size - alt_bytes.length) 0)
    (write_at tag_off (store_le_u 4 alt_idx) rec)

/-- Tagged-sum `index()`: load the 32-bit little-endian discriminant stored at
`tag_off`. -/
def sum_index (tag_off : Nat) (rec : List Nat) : Nat :=
  load_le_u 4 (rec.drop tag_off)

/-! The `Example` schema (`src/tests/test_schema.h`): `flag: bool` at offset
0, `id: i32` at 1, `inner: {score: i16; enabled: bool}` at 5, the tagged sum
`value` over `<std::int32_t, double>` with tag at 8 and 8-byte payload at 12,
`kind: u8 enum` at 20; stride 21.  Offsets follow the generator's layout rule
(declaration order, running sum, no padding; spec.md section 3). -/

/-- Models `Example::__layout::value_tag_offset`. -/
def example_value_tag_offset : Nat := 8

/-- Models `Example::__layout::value_payload_offset`. -/
def example_value_payload_offset : Nat := 12

/-- Models `Example`'s `value` payload size: `max(wire_size(i32), wire_size(f64))`. -/
def example_value_payload_size : Nat := 8

/-- Models `Example::noserde_size_bytes`. -/
def example_stride : Nat := 21

/-- Models `Example::value_union_ref::emplace<std::int32_t>` on the record bytes:
the generated code stores discriminant 0 for the first alternative, as
pinned by `src/tests/runtime_tests.cpp` lines 31-58 (the first alternative
is live while `index() == 0` and the tag bytes are `[0,0,0,0]`).  The
argument is the alternative's 4-byte two's-complement value. -/
def example_value_emplace_i32 (v : Int) (rec : List Nat) : List Nat :=
  sum_emplace example_value_tag_offset example_value_payload_offset
    example_value_payload_size 0 (store_le_u 4 (to_unsigned 4 v)) rec

/-- Models `Example::value_union_ref::emplace<double>` on the record bytes: the
generated code stores discriminant 1 for the second alternative, as pinned
by `src/tests/runtime_tests.cpp` lines 60-78 (`index() == 1` and tag bytes
`[1,0,0,0]` after `emplace<double>(1.5)`).  The argument is the IEEE-754
bit pattern of the double. -/
def example_value_emplace_f64 (bits : Nat) (rec : List Nat) : List Nat :=
  sum_emplace example_value_tag_offset example_value_payload_offset
    example_value_payload_size 1 (store_le_u 8 bits) rec

/-! ## Byte container (noserde.hpp, lines 504-653)

The `Buffer` specialization for generated record types stores its record
bytes in a page-organised byte sequence (`sfl::segmented_vector` under the
segmented policy, `std::vector` under the contiguous policy).  We model the
logical contiguous byte image as a `List Nat` together with the compile-time
constants `stride` (`record_traits<T>::size_bytes`) and `pb`
(`kPageBytes`, the chunk size used by the page-wise copy loops).  The
schema's default-assignment performed by `emplace_back` is a sequence of
in-place field stores through views; we model it as a list of
(record-relative offset, byte) writes. -/

/-- Models `Buffer::size()` (noserde.hpp, lines 529-532): byte count divided by the
record stride. -/
def size_op (stride : Nat) (data : List Nat) : Nat :=
  if stride = 0 then 0 else data.length / stride

/-- Models `Buffer::byte_size()` (noserde.hpp, line 534). -/
def byte_size_op (data : List Nat) : Nat :=
  data.length

/-- Models `Buffer::clear()` (noserde.hpp, line 538). -/
def clear_op : List Nat :=
  []

/-- The resize-and-zero phase of `Buffer::emplace_back` (noserde.hpp, lines
541-546): grow the byte image by `stride` bytes and zero every appended
byte, before the schema's default-assignment runs. -/
def emplace_back_zeroed (stride : Nat) (data : List Nat) : List Nat :=
  data ++ List.replicate stride 0

/-- A sequence of single-byte stores at offsets relative to `base`: the
effect of the generated `assign(view, data)` writing each field through its
view (noserde.hpp, lines 547-551 invoke it with the default-constructed
data twin). -/
def apply_writes (base : Nat) (ws : List (Nat × Nat)) (data : List Nat) : List Nat :=
  ws.foldl (fun d p => d.set (base + p.1) p.2) data

/-- Models `Buffer::emplace_back` (noserde.hpp, lines 540-553): append `stride`
zeroed bytes, then run the schema's default-assignment `ws` over the new
record. -/
def emplace_back_op (stride : Nat) (ws : List (Nat × Nat)) (data : List Nat) : List Nat :=
  apply_writes data.length ws (emplace_back_zeroed stride data)

/-- The page-wise copy loop of `Buffer::bytes()` (noserde.hpp, lines
575-584): copy chunks of at most `pb = kPageBytes` bytes until the whole
image is copied.  (`pb = 0` cannot arise: `kPageBytes` is positive by
`static_assert`; the `[]` result in that branch only serves termination.) -/
def bytes_chunks (pb : Nat) (data : List Nat) : List Nat :=
  if h : pb = 0 ∨ data = [] then []
  else data.take pb ++ bytes_chunks pb (data.drop pb)
termination_by data.length
decreasing_by
  push_neg at h
  simp only [List.length_drop]
  have : data.length ≠ 0 := fun hz => h.2 (List.eq_nil_of_length_eq_zero hz)
  omega

/-- Models `Buffer::bytes()` (noserde.hpp, lines 575-584). -/
def bytes_op (pb : Nat) (data : List Nat) : List Nat :=
  bytes_chunks pb data

/-- Models `std::vector`/`sfl::segmented_vector` `resize(n)`: keep the first
`min n old` elements, value-initialize (zero) the rest. -/
def resize_list (data : List Nat) (n : Nat) : List Nat :=
  data.take n ++ List.replicate (n - data.length) 0

/-- The page-wise copy loop of `Buffer::assign_bytes_impl` (noserde.hpp,
lines 632-640): overwrite `dst` (already resized to `src.length`) with `src`,
`pb` bytes at a time, advancing the offset chunk by chunk. -/
def copy_chunks (pb : Nat) (src dst : List Nat) : List Nat :=
  if h : pb = 0 ∨ src = [] then dst
  else src.take pb ++ copy_chunks pb (src.drop pb) (dst.drop pb)
termination_by src.length
decreasing_by
  push_neg at h
  simp only [List.length_drop]
  have : src.length ≠ 0 := fun hz => h.2 (List.eq_nil_of_length_eq_zero hz)
  omega

/-- Models `Buffer::assign_bytes_impl` (noserde.hpp, lines 624-642): reject a
payload whose length is not a multiple of the record stride with
`payload_size_mismatch` (leaving the stored bytes untouched); otherwise
resize the storage to the payload length and copy the payload in page-sized
chunks. -/
def assign_bytes_op (stride pb : Nat) (payload : List Nat) (data : List Nat) :
    Except io_error Unit × List Nat :=
  if stride = 0 ∨ payload.length % stride ≠ 0 then
    (.error .payload_size_mismatch, data)
  else
    (.ok (), copy_chunks pb payload (resize_list data payload.length))

/-! ## Framed binary codec (noserde.hpp, lines 807-892) -/

/-- Models `noserde::k_binary_magic`, the ASCII bytes of `NSRDBIN1`
(noserde.hpp, line 807). -/
def k_binary_magic : List Nat :=
  [78, 83, 82, 68, 66, 73, 78, 49]

/-- Models `noserde::k_binary_header_size` (noserde.hpp, line 808): 8 magic bytes
plus four 8-byte little-endian fields. -/
def k_binary_header_size : Nat :=
  40

/-- Models `noserde::read_binary` (noserde.hpp, lines 849-892), for a buffer type
with schema-hash constant `k_hash`, record-size constant `k_stride`
(positive by `static_assert`) and page size `pb`.  The input file is
`none` when opening fails, otherwise `some` of the file's bytes.  Returns
the result together with the target buffer's byte image after the call.
The step-5 comparison multiplies the two 64-bit header fields in
`std::uint64_t`, hence the `% 2 ^ 64`. -/
def read_binary (k_hash k_stride pb : Nat) (file : Option (List Nat))
    (buf : List Nat) : Except io_error Unit × List Nat :=
  match file with
  | none => (.error .open_failed, buf)
  | some bytes =>
    if bytes.length < k_binary_header_size then (.error .read_failed, buf)
    else if (bytes.take k_binary_header_size).take 8 ≠ k_binary_magic then
      (.error .invalid_header, buf)
    else if load_le_u 8 ((bytes.take k_binary_header_size).drop 8) ≠ k_hash ∨
        load_le_u 8 ((bytes.take k_binary_header_size).drop 16) ≠ k_stride then
      (.error .schema_mismatch, buf)
    else if load_le_u 8 ((bytes.take k_binary_header_size).drop 32)
        ≠ load_le_u 8 ((bytes.take k_binary_header_size).drop 16)
          * load_le_u 8 ((bytes.take k_binary_header_size).drop 24) % 2 ^ 64 then
      (.error .invalid_header, buf)
    else if (bytes.drop k_binary_header_size).length
        < load_le_u 8 ((bytes.take k_binary_header_size).drop 32) then
      (.error .truncated_payload, buf)
    else
      assign_bytes_op k_stride pb
        ((bytes.drop k_binary_header_size).take
          (load_le_u 8 ((bytes.take k_binary_header_size).drop 32))) buf

/-- The validation contract of `read_binary` as the spec words it (spec.md
section 4.5 and claim C3): the seven checks in order — (1) file opens,
(2) full 40-byte header read, (3) magic equals `NSRDBIN1`, (4) fingerprint
and stride equal the buffer's constants, (5) `payload_size` equals
`stride * record_count` (a 64-bit product), (6) full payload read,
(7) payload size a multiple of stride — returning the error of the first
failing check (`open_failed`, `read_failed`, `invalid_header`,
`schema_mismatch`, `invalid_header`, `truncated_payload`,
`payload_size_mismatch` respectively) and succeeding iff all pass. -/
def read_binary_contract (k_hash k_stride : Nat) (file : Option (List Nat)) :
    Except io_error Unit :=
  match file with
  | none => .error .open_failed
  | some bytes =>
    if bytes.length < 40 then .error .read_failed
    else if bytes.take 8 ≠ k_binary_magic then .error .invalid_header
    else if load_le_u 8 ((bytes.take 40).drop 8) ≠ k_hash ∨
        load_le_u 8 ((bytes.take 40).drop 16) ≠ k_stride then .error .schema_mismatch
    else if load_le_u 8 ((bytes.take 40).drop 32)
        ≠ k_stride * load_le_u 8 ((bytes.take 40).drop 24) % 2 ^ 64 then
      .error .invalid_header
    else if (bytes.drop 40).length < load_le_u 8 ((bytes.take 40).drop 32) then
      .error .truncated_payload
    else if load_le_u 8 ((bytes.take 40).drop 32) % k_stride ≠ 0 then
      .error .payload_size_mismatch
    else .ok ()

/-! ## Stream-codec hooks (noserde.hpp, lines 198-233 and 896-951) -/

/-- Models `noserde::k_bitsery_max_payload_bytes` (noserde.hpp, line 233). -/
def k_bitsery_max_payload_bytes : Nat :=
  0x3FFFFFFF

/-- Models `noserde::detail::read_bitsery_size_prefix_1b` (noserde.hpp, lines
198-229): decode the stream codec's variable-length size prefix from the
front of the input, returning the decoded size and the remaining input, or
`none` when a byte read fails for lack of input.  The 2-byte word `lw` is
read little-endian by the bitsery adapter. -/
def read_bitsery_size_1b (input : List Nat) : Option (Nat × List Nat) :=
  match input with
  | [] => none
  | hb :: rest =>
    if hb < 0x80 then some (hb, rest)
    else
      match rest with
      | [] => none
      | lb :: rest2 =>
        if hb &&& 0x40 ≠ 0 then
          match rest2 with
          | b0 :: b1 :: rest3 =>
            some (((((hb &&& 0x3F) <<< 8) ||| lb) <<< 16) ||| (b0 + 256 * b1), rest3)
          | _ => none
        else
          some (((hb &&& 0x7F) <<< 8) ||| lb, rest2)

/-- The variable-length size prefix contract as the spec words it
(spec.md section 4.6 and claim C8), written arithmetically: a first byte
below `0x80` encodes itself; bit 7 set with bit 6 clear consumes one more
byte `lb` and encodes `((hb & 0x7F) << 8) | lb`; bits 7 and 6 both set
consume `lb` and a 2-byte little-endian word `lw` and encode
`(((hb & 0x3F) << 8) | lb) << 16 | lw`; failure exactly when the input is
too short. -/
def read_size_contract (input : List Nat) : Option (Nat × List Nat) :=
  match input with
  | [] => none
  | hb :: rest =>
    if hb < 128 then some (hb, rest)
    else if hb / 64 % 2 = 0 then
      match rest with
      | [] => none
      | lb :: rest2 => some ((hb % 128) * 256 + lb, rest2)
    else
      match rest with
      | lb :: b0 :: b1 :: rest3 =>
        some (((hb % 64) * 256 + lb) * 65536 + (b0 + 256 * b1), rest3)
      | _ => none

/-- The decode direction of `bitsery::serialize(S&, noserde::Buffer&)`
(noserde.hpp, lines 902-941): read the 8-byte schema hash and 8-byte record
size, compare them against the buffer type's constants, read the
variable-length payload size, validate it, and read the payload page-wise
into the buffer.  Returns `(ok, new buffer bytes)`; every failure path runs
`buffer.clear()` first (lines 913, 921, 929, 933, 939). -/
def bitsery_decode (k_hash k_stride : Nat) (input : List Nat) (buf : List Nat) :
    Bool × List Nat :=
  if input.length < 16 then (false, [])
  else if load_le_u 8 (input.take 8) ≠ k_hash ∨
      load_le_u 8 ((input.drop 8).take 8) ≠ k_stride then (false, [])
  else
    match read_bitsery_size_1b (input.drop 16) with
    | none => (false, [])
    | some (payload_size, rest) =>
      if payload_size > k_bitsery_max_payload_bytes ∨ payload_size % k_stride ≠ 0 then
        (false, [])
      else if rest.length < payload_size then (false, [])
      else (true, rest.take payload_size)

/-! ## Schema fingerprint (noserde.hpp, lines 149-175) -/

/-- Models `noserde::detail::fnv1a64` (noserde.hpp, lines 149-156): FNV-1a over the
bytes of the signature text (each character cast to `std::uint8_t`), in
64-bit arithmetic. -/
def fnv1a64 (text : List Nat) : Nat :=
  text.foldl (fun h c => ((h ^^^ (c % 256)) * 1099511628211) % 2 ^ 64)
    14695981039346656037

/-- Models `noserde::detail::native_type_schema_hash` (noserde.hpp, lines 169-175):
hash the canonical textual signature, then mix in the type's byte size
(`h ^= stride; h *= prime`, in 64-bit arithmetic). -/
def native_type_schema_hash (sig : List Nat) (stride : Nat) : Nat :=
  ((fnv1a64 sig ^^^ stride) * 1099511628211) % 2 ^ 64

/-- The fingerprint contract as the spec words it (claim C9): FNV-1a with
offset basis `0xCBF29CE484222325` and prime `0x100000001B3`, written as an
explicit recursion with the hexadecimal constants. -/
def fnv1a64_contract_go (h : Nat) : List Nat → Nat
  | [] => h
  | c :: rest => fnv1a64_contract_go (((h ^^^ (c % 256)) * 0x100000001B3) % 2 ^ 64) rest

/-- The FNV-1a hash per the spec's constants. -/
def fnv1a64_contract (text : List Nat) : Nat :=
  fnv1a64_contract_go 0xCBF29CE484222325 text

/-- Fingerprint per the spec's words: FNV-1a of the signature, then the
final mix `h ^= stride; h *= 0x100000001B3`. -/
def fingerprint_contract (sig : List Nat) (stride : Nat) : Nat :=
  ((fnv1a64_contract sig ^^^ stride) * 0x100000001B3) % 2 ^ 64

end Noserde

namespace Noserde

/-! ## Basic facts about the byte codec -/

theorem store_le_u_length (w v : Nat) : (store_le_u w v).length = w := by
  induction w generalizing v with
  | zero => rfl
  | succ w ih => simp [store_le_u, ih]

theorem load_le_u_store_le_u (w v : Nat) :
    load_le_u w (store_le_u w v) = v % 256 ^ w := by
  induction w generalizing v with
  | zero => simp [store_le_u, load_le_u, Nat.mod_one]
  | succ w ih =>
    have hpow : (256 : Nat) ^ (w + 1) = 256 * 256 ^ w := by ring
    rw [store_le_u, load_le_u, ih, hpow, Nat.mod_mul]

theorem store_le_u_getElem (w v i : Nat) (h : i < w) :
    (store_le_u w v).getD i 0 = v / 256 ^ i % 256 := by
  induction w generalizing v i with
  | zero => omega
  | succ w ih =>
    cases i with
    | zero => simp [store_le_u]
    | succ i =>
      have : i < w := by omega
      simp only [store_le_u, List.getD_cons_succ, ih _ _ this]
      rw [Nat.div_div_eq_div_mul, pow_succ, Nat.mul_comm 256 (256 ^ i),
        Nat.mul_comm (256 ^ i) 256]

/-- Lemma: `load_le_u` only inspects the first `w` bytes. -/
theorem load_le_u_append (w : Nat) (img rest : List Nat) (h : img.length = w) :
    load_le_u w (img ++ rest) = load_le_u w img := by
  induction w generalizing img with
  | zero => simp [load_le_u]
  | succ w ih =>
    cases img with
    | nil => simp at h
    | cons b tl =>
      simp only [List.cons_append, load_le_u, List.append_eq]
      rw [ih tl (by simpa using h)]

theorem write_at_length (off : Nat) (img data : List Nat)
    (h : off + img.length ≤ data.length) :
    (write_at off img data).length = data.length := by
  simp only [write_at, List.length_append, List.length_take, List.length_drop]
  omega

theorem write_at_drop (off : Nat) (img data : List Nat) (h : off ≤ data.length) :
    (write_at off img data).drop off = img ++ data.drop (off + img.length) := by
  have hlen : (data.take off).length = off := by
    simp only [List.length_take]
    omega
  rw [write_at, List.append_assoc, List.drop_append_eq_append_drop, hlen,
    Nat.sub_self, List.drop_zero, List.drop_eq_nil_of_le (le_of_eq hlen),
    List.nil_append]

/-- Bitwise-or of a left-shifted value with a value fitting below the shift
is ordinary addition. -/
theorem lor_two_pow_add (a b k : Nat) (hb : b < 2 ^ k) :
    (a <<< k) ||| b = a * 2 ^ k + b := by
  apply Nat.eq_of_testBit_eq
  intro i
  rw [Nat.testBit_or, Nat.testBit_shiftLeft]
  rcases Nat.lt_or_ge i k with h | h
  · have h1 : (decide (k ≤ i) && Nat.testBit a (i - k)) = false := by
      simp [Nat.not_le.mpr h]
    rw [h1, Bool.false_or]
    have h2 : Nat.testBit (a * 2 ^ k + b) i
        = Nat.testBit ((a * 2 ^ k + b) % 2 ^ k) i := by
      rw [Nat.testBit_mod_two_pow]
      simp [h]
    rw [h2, Nat.add_comm (a * 2 ^ k) b, Nat.add_mul_mod_self_right,
      Nat.mod_eq_of_lt hb]
  · have hbf : Nat.testBit b i = false :=
      Nat.testBit_lt_two_pow
        (lt_of_lt_of_le hb (Nat.pow_le_pow_right (by norm_num) h))
    have h2 : Nat.testBit (a * 2 ^ k + b) (k + (i - k)) = Nat.testBit a (i - k) := by
      rw [← Nat.testBit_shiftRight, Nat.shiftRight_eq_div_pow, Nat.mul_comm a,
        Nat.mul_add_div (Nat.two_pow_pos k), Nat.div_eq_of_lt hb, Nat.add_zero]
    have h3 : k + (i - k) = i := by omega
    rw [h3] at h2
    rw [hbf, Bool.or_false, h2]
    simp [h]

theorem and_127_eq_mod (x : Nat) : x &&& 127 = x % 128 := by
  have h : (127 : Nat) = 2 ^ 7 - 1 := by norm_num
  have h2 : (128 : Nat) = 2 ^ 7 := by norm_num
  rw [h, h2, Nat.and_pow_two_sub_one_eq_mod]

theorem and_63_eq_mod (x : Nat) : x &&& 63 = x % 64 := by
  have h : (63 : Nat) = 2 ^ 6 - 1 := by norm_num
  have h2 : (64 : Nat) = 2 ^ 6 := by norm_num
  rw [h, h2, Nat.and_pow_two_sub_one_eq_mod]

theorem and_64_ne_zero_iff (x : Nat) : x &&& 64 ≠ 0 ↔ x / 64 % 2 = 1 := by
  have h : (64 : Nat) = 2 ^ 6 := by norm_num
  rw [h, Nat.and_two_pow]
  rw [Nat.testBit_to_div_mod]
  rcases Nat.mod_two_eq_zero_or_one (x / 2 ^ 6) with hm | hm <;>
    simp [hm, h] <;> omega

theorem shift8_lor_eq (a lb : Nat) (hlb : lb < 256) :
    (a <<< 8) ||| lb = a * 256 + lb := by
  have := lor_two_pow_add a lb 8 (by norm_num at *; omega)
  simpa using this

theorem shift16_lor_eq (a lw : Nat) (hlw : lw < 65536) :
    (a <<< 16) ||| lw = a * 65536 + lw := by
  have := lor_two_pow_add a lw 16 (by norm_num at *; omega)
  simpa using this

theorem fnv1a64_foldl_go (text : List Nat) :
    ∀ h, text.foldl (fun h c => ((h ^^^ (c % 256)) * 1099511628211) % 2 ^ 64) h
      = fnv1a64_contract_go h text := by
  induction text with
  | nil => intro h; rfl
  | cons c rest ih =>
    intro h
    simp only [List.foldl_cons, fnv1a64_contract_go]
    exact ih _

/-- C8. The stream-codec size-prefix decoder implements exactly the
contracted variable-length format: a first byte `hb < 0x80` yields the 1-byte
value `hb`; `hb` with bit 7 set and bit 6 clear consumes one more byte `lb`
and yields `((hb & 0x7F) << 8) | lb`; `hb` with bits 7 and 6 both set
consumes `lb` and a 2-byte little-endian word `lw` and yields
`(((hb & 0x3F) << 8) | lb) << 16 | lw`; it fails exactly when the input has
too few bytes. -/
theorem claim_C8 (input : List Nat) (hbytes : ∀ b ∈ input, b < 256) :
    read_bitsery_size_1b input = read_size_contract input := by
  match input with
  | [] => rfl
  | hb :: rest =>
    have hhb : hb < 256 := hbytes hb (by simp)
    by_cases h1 : hb < 128
    · simp [read_bitsery_size_1b, read_size_contract, h1]
    · by_cases h6 : hb &&& 64 = 0
      · have h6' : hb / 64 % 2 = 0 := by
          rcases Nat.mod_two_eq_zero_or_one (hb / 64) with hm | hm
          · exact hm
          · exact absurd ((and_64_ne_zero_iff hb).mpr hm) (by simp [h6])
        cases rest with
        | nil => simp [read_bitsery_size_1b, read_size_contract, h1, h6, h6']
        | cons lb rest2 =>
          have hlb : lb < 256 := hbytes lb (by simp)
          simp [read_bitsery_size_1b, read_size_contract, h1, h6, h6',
            and_127_eq_mod, shift8_lor_eq _ lb hlb]
      · have h6' : hb / 64 % 2 = 1 := (and_64_ne_zero_iff hb).mp h6
        cases rest with
        | nil => simp [read_bitsery_size_1b, read_size_contract, h1, h6, h6']
        | cons lb rest2 =>
          have hlb : lb < 256 := hbytes lb (by simp)
          cases rest2 with
          | nil => simp [read_bitsery_size_1b, read_size_contract, h1, h6, h6']
          | cons b0 rest3 =>
            have hb0 : b0 < 256 := hbytes b0 (by simp)
            cases rest3 with
            | nil => simp [read_bitsery_size_1b, read_size_contract, h1, h6, h6']
            | cons b1 rest4 =>
              have hb1 : b1 < 256 := hbytes b1 (by simp)
              have hlw : b0 + 256 * b1 < 65536 := by omega
              simp [read_bitsery_size_1b, read_size_contract, h1, h6, h6',
                and_63_eq_mod, shift8_lor_eq _ lb hlb, shift16_lor_eq _ _ hlw]

/-- Witness for C8 at a concrete 4-byte encoding. -/
theorem claim_C8_witness :
    (∀ b ∈ [193, 2, 3, 4], b < 256) ∧
      read_bitsery_size_1b [193, 2, 3, 4] = read_size_contract [193, 2, 3, 4] :=
  ⟨by decide, claim_C8 [193, 2, 3, 4] (by decide)⟩

/-- C9. The schema fingerprint of a native pass-through type is the
64-bit FNV-1a hash of its canonical textual signature with offset basis
`0xCBF29CE484222325` and prime `0x100000001B3`, followed by the final mix
`h ^= stride; h *= 0x100000001B3`; identical signature and stride always
produce the identical fingerprint. -/
theorem claim_C9 (sig : List Nat) (stride : Nat) :
    native_type_schema_hash sig stride = fingerprint_contract sig stride ∧
    ∀ sig2 stride2, sig = sig2 → stride = stride2 →
      native_type_schema_hash sig stride = native_type_schema_hash sig2 stride2 := by
  constructor
  · unfold native_type_schema_hash fingerprint_contract fnv1a64 fnv1a64_contract
    rw [fnv1a64_foldl_go]
  · intro sig2 stride2 h1 h2
    rw [h1, h2]

/-- Witness for C9 at a concrete signature. -/
theorem claim_C9_witness :
    native_type_schema_hash [118, 51] 12 = fingerprint_contract [118, 51] 12 ∧
      native_type_schema_hash [118, 51] 12 = native_type_schema_hash [118, 51] 12 :=
  ⟨(claim_C9 [118, 51] 12).1, (claim_C9 [118, 51] 12).2 [118, 51] 12 rfl rfl⟩

/-- C4. For every supported scalar width, `store_le` followed by
`load_le` at the same byte position returns the value bit-exactly, and the
stored bytes are the little-endian byte image (least-significant byte
first); the store/load work at any byte offset into a surrounding buffer
(no alignment assumed); signed integers round-trip through their `w`-byte
two's-complement unsigned representation; booleans round-trip.  Floats are
bit-cast to the unsigned integer of matching width and take the integer
path (noserde.hpp, lines 252-255 and 283-286), so the unsigned round-trip
at widths 4 and 8 is exactly bit-pattern preservation for floats — all NaN
payloads and signed zero included; enums take the path of their underlying
integer. -/
theorem claim_C4 :
    (∀ w v, v < 256 ^ w →
      load_le_u w (store_le_u w v) = v ∧
      (store_le_u w v).length = w ∧
      ∀ i, i < w → (store_le_u w v).getD i 0 = v / 256 ^ i % 256) ∧
    (∀ w v off data, off + w ≤ data.length → v < 256 ^ w →
      load_le_u w (List.drop off (write_at off (store_le_u w v) data)) = v) ∧
    (∀ w : Nat, ∀ v : Int, 0 < w → -(2 ^ (8 * w - 1) : Int) ≤ v →
      v < (2 ^ (8 * w - 1) : Int) →
      to_signed w (load_le_u w (store_le_u w (to_unsigned w v))) = v) ∧
    (∀ b, load_le_bool (store_le_bool b) = b) := by
  have h256 : ∀ w : Nat, (256 : Nat) ^ w = 2 ^ (8 * w) := by
    intro w
    rw [show (256 : Nat) = 2 ^ 8 by norm_num, ← pow_mul]
  refine ⟨?_, ?_, ?_, ?_⟩
  · intro w v hv
    exact ⟨by rw [load_le_u_store_le_u, Nat.mod_eq_of_lt hv],
      store_le_u_length w v, fun i hi => store_le_u_getElem w v i hi⟩
  · intro w v off data hoff hv
    have hle : off ≤ data.length := by omega
    rw [write_at_drop off _ data hle,
      load_le_u_append w _ _ (store_le_u_length w v),
      load_le_u_store_le_u, Nat.mod_eq_of_lt hv]
  · intro w v hw hlo hhi
    obtain ⟨K, hKdef⟩ : ∃ K : Nat, 2 ^ (8 * w - 1) = K := ⟨_, rfl⟩
    obtain ⟨M, hMdef⟩ : ∃ M : Nat, 2 ^ (8 * w) = M := ⟨_, rfl⟩
    have hKM : M = 2 * K := by
      rw [← hKdef, ← hMdef, ← pow_succ']
      congr 1
      omega
    have hKpos : 0 < K := by
      rw [← hKdef]
      positivity
    have hKI : ((2 : Int) ^ (8 * w - 1)) = (K : Int) := by
      rw [← hKdef]
      push_cast
      rfl
    have hMI : ((2 : Int) ^ (8 * w)) = (M : Int) := by
      rw [← hMdef]
      push_cast
      rfl
    rw [hKI] at hlo hhi
    unfold to_unsigned to_signed
    rw [load_le_u_store_le_u, h256, hMdef, hKdef, hMI]
    rcases le_or_lt 0 v with hv0 | hv0
    · have hemod : v % (M : Int) = v := Int.emod_eq_of_lt hv0 (by omega)
      rw [hemod]
      have h1 : v.toNat < M := by omega
      have h2 : v.toNat < K := by omega
      rw [Nat.mod_eq_of_lt h1, if_pos h2]
      omega
    · have hstep : v % (M : Int) = v + M := by
        have h1 := Int.add_mul_emod_self_left v (M : Int) 1
        rw [mul_one] at h1
        have h2 : (v + (M : Int)) % (M : Int) = v + M :=
          Int.emod_eq_of_lt (by omega) (by omega)
        rw [← h1, h2]
      rw [hstep]
      have h1 : (v + (M : Int)).toNat < M := by omega
      have h2 : ¬ (v + (M : Int)).toNat < K := by omega
      rw [Nat.mod_eq_of_lt h1, if_neg h2]
      omega
  · intro b
    cases b <;> rfl

theorem load_le_u_take (w : Nat) (l : List Nat) :
    load_le_u w l = load_le_u w (l.take w) := by
  induction w generalizing l with
  | zero => rfl
  | succ w ih =>
    cases l with
    | nil => rfl
    | cons b tl =>
      simp only [load_le_u, List.take_succ_cons]
      rw [ih]

theorem load_le_u_replicate_zero (w k : Nat) :
    load_le_u w (List.replicate k 0) = 0 := by
  induction w generalizing k with
  | zero => rfl
  | succ w ih =>
    cases k with
    | zero => rfl
    | succ k => simp [List.replicate_succ, load_le_u, ih]

/-- Loading `w` bytes at `tag_off` is unaffected by a write at `pay_off`
when the loaded region ends before `pay_off`. -/
theorem load_le_u_write_at_after (w tag_off pay_off : Nat) (pimg inner : List Nat)
    (hsep : tag_off + w ≤ pay_off) (hlen : pay_off ≤ inner.length) :
    load_le_u w ((write_at pay_off pimg inner).drop tag_off)
      = load_le_u w (inner.drop tag_off) := by
  rw [load_le_u_take w ((write_at pay_off pimg inner).drop tag_off),
    load_le_u_take w (inner.drop tag_off)]
  congr 1
  have htl : (inner.take pay_off).length = pay_off := by
    simp only [List.length_take]
    omega
  rw [write_at, List.append_assoc, List.drop_append_eq_append_drop, htl]
  rw [List.take_append_of_le_length (by simp only [List.length_drop, htl]; omega)]
  rw [List.drop_take, List.take_take]
  congr 1
  omega

/-- Reading the discriminant back after a tagged-sum `emplace` yields the
stored 0-based alternative position. -/
theorem sum_index_emplace (tag_off pay_off pay_size j : Nat) (alt_bytes rec : List Nat)
    (hsep : tag_off + 4 ≤ pay_off) (hlen : pay_off ≤ rec.length)
    (hj : j < 4294967296) :
    sum_index tag_off (sum_emplace tag_off pay_off pay_size j alt_bytes rec) = j := by
  unfold sum_index sum_emplace
  have hwlen : (write_at tag_off (store_le_u 4 j) rec).length = rec.length :=
    write_at_length tag_off _ rec (by rw [store_le_u_length]; omega)
  rw [load_le_u_write_at_after 4 tag_off pay_off _ _ hsep (by omega)]
  rw [write_at_drop tag_off _ rec (by omega)]
  rw [load_le_u_append 4 _ _ (store_le_u_length 4 j), load_le_u_store_le_u]
  have h4 : (256 : Nat) ^ 4 = 4294967296 := by norm_num
  rw [h4, Nat.mod_eq_of_lt hj]

/-- The modelled `Example::value` view reproduces the byte-level assertions
of `src/tests/runtime_tests.cpp` (lines 31-78): tag bytes `[0,0,0,0]` with
the `std::int32_t` alternative equal to 7 live, then after
`emplace<double>(1.5)` tag bytes `[1,0,0,0]` and payload bytes ending in
`F8 3F` with the leading payload byte zero. -/
theorem example_value_model_matches_tests :
    ((example_value_emplace_i32 7 (List.replicate example_stride 0)).drop
        example_value_tag_offset).take 4 = [0, 0, 0, 0] ∧
    load_le_u 4 ((example_value_emplace_i32 7 (List.replicate example_stride 0)).drop
        example_value_payload_offset) = 7 ∧
    ((example_value_emplace_f64 0x3FF8000000000000
        (example_value_emplace_i32 7 (List.replicate example_stride 0))).drop
        example_value_tag_offset).take 4 = [1, 0, 0, 0] ∧
    (example_value_emplace_f64 0x3FF8000000000000
        (example_value_emplace_i32 7 (List.replicate example_stride 0))).getD
        (example_value_payload_offset + 6) 0 = 0xF8 ∧
    (example_value_emplace_f64 0x3FF8000000000000
        (example_value_emplace_i32 7 (List.replicate example_stride 0))).getD
        (example_value_payload_offset + 7) 0 = 0x3F ∧
    (example_value_emplace_f64 0x3FF8000000000000
        (example_value_emplace_i32 7 (List.replicate example_stride 0))).getD
        (example_value_payload_offset + 0) 0 = 0 ∧
    (example_value_emplace_f64 0x3FF8000000000000
        (example_value_emplace_i32 7 (List.replicate example_stride 0))).length
      = example_stride := by
  decide

/-- C1 counterexample. The claim states that `emplace` of the `i`-th
alternative (1-based, declaration order) writes discriminant `i` and that
discriminant 0 denotes the empty sum.  On `Example::value` (alternatives
`<std::int32_t, double>`), `emplace<double>` — the 2nd alternative — stores
discriminant 1, not 2, and `emplace<std::int32_t>` — the 1st — stores
discriminant 0, not 1 (matching the assertions of
`src/tests/runtime_tests.cpp` lines 31-72). -/
theorem claim_C1_counterexample :
    sum_index example_value_tag_offset
        (example_value_emplace_f64 0x3FF8000000000000
          (List.replicate example_stride 0)) = 1 ∧
    sum_index example_value_tag_offset
        (example_value_emplace_i32 7 (List.replicate example_stride 0)) = 0 ∧
    (1 : Nat) ≠ 2 ∧ (0 : Nat) ≠ 1 := by
  decide

/-- C1 (amended). For every tagged-sum field, discriminants are 0-based:
`emplace` of the alternative with 0-based declaration position `j` writes
discriminant `j` (32-bit little-endian), `index()` returns the stored
discriminant, and a freshly emplaced (all-zero) record has discriminant 0 —
which is also the first alternative's discriminant; there is no separate
"empty" sentinel. -/
theorem claim_C1 (tag_off pay_off pay_size j : Nat) (alt_bytes rec : List Nat)
    (hsep : tag_off + 4 ≤ pay_off) (hlen : pay_off ≤ rec.length)
    (hj : j < 4294967296) :
    sum_index tag_off (sum_emplace tag_off pay_off pay_size j alt_bytes rec) = j ∧
    ∀ n, sum_index tag_off (List.replicate n 0) = 0 := by
  refine ⟨sum_index_emplace tag_off pay_off pay_size j alt_bytes rec hsep hlen hj, ?_⟩
  intro n
  unfold sum_index
  rw [List.drop_replicate]
  exact load_le_u_replicate_zero 4 _

/-- Witness for the amended C1 on the `Example::value` layout. -/
theorem claim_C1_witness :
    (8 + 4 ≤ 12 ∧ 12 ≤ (List.replicate 21 (0 : Nat)).length ∧ 1 < 4294967296) ∧
      sum_index 8 (sum_emplace 8 12 8 1 (store_le_u 8 0x3FF8000000000000)
        (List.replicate 21 0)) = 1 :=
  ⟨by decide,
   (claim_C1 8 12 8 1 (store_le_u 8 0x3FF8000000000000) (List.replicate 21 0)
      (by decide) (by decide) (by decide)).1⟩

/-- The page-wise copy loop of `bytes()` reproduces the logical byte image. -/
theorem bytes_chunks_eq (pb : Nat) (hpb : pb ≠ 0) (data : List Nat) :
    bytes_chunks pb data = data := by
  suffices H : ∀ n (data : List Nat), data.length ≤ n → bytes_chunks pb data = data from
    H data.length data le_rfl
  intro n
  induction n with
  | zero =>
    intro data hlen
    have hnil : data = [] := List.eq_nil_of_length_eq_zero (by omega)
    rw [hnil, bytes_chunks]
    simp
  | succ n ih =>
    intro data hlen
    rw [bytes_chunks]
    split
    · rename_i h
      rcases h with h | h
      · exact absurd h hpb
      · rw [h]
    · rename_i h
      push_neg at h
      have hne : data.length ≠ 0 := fun hz => h.2 (List.eq_nil_of_length_eq_zero hz)
      rw [ih (data.drop pb) (by simp only [List.length_drop]; omega),
        List.take_append_drop]

/-- The page-wise copy loop of `assign_bytes` overwrites an equal-length
destination with the source. -/
theorem copy_chunks_eq (pb : Nat) (hpb : pb ≠ 0) (src dst : List Nat)
    (hlen : dst.length = src.length) :
    copy_chunks pb src dst = src := by
  suffices H : ∀ n (src dst : List Nat), src.length ≤ n → dst.length = src.length →
      copy_chunks pb src dst = src from
    H src.length src dst le_rfl hlen
  intro n
  induction n with
  | zero =>
    intro src dst hle hl
    have hnil : src = [] := List.eq_nil_of_length_eq_zero (by omega)
    have hdst : dst = [] := List.eq_nil_of_length_eq_zero (by omega)
    rw [hnil, hdst, copy_chunks]
    simp
  | succ n ih =>
    intro src dst hle hl
    rw [copy_chunks]
    split
    · rename_i h
      rcases h with h | h
      · exact absurd h hpb
      · rw [h] at hl ⊢
        exact List.eq_nil_of_length_eq_zero (by simpa using hl)
    · rename_i h
      push_neg at h
      have hne : src.length ≠ 0 := fun hz => h.2 (List.eq_nil_of_length_eq_zero hz)
      rw [ih (src.drop pb) (dst.drop pb) (by simp only [List.length_drop]; omega)
        (by simp only [List.length_drop]; omega), List.take_append_drop]

theorem resize_list_length (data : List Nat) (n : Nat) :
    (resize_list data n).length = n := by
  simp only [resize_list, List.length_append, List.length_take, List.length_replicate]
  omega

theorem apply_writes_length (ws : List (Nat × Nat)) (base : Nat) (data : List Nat) :
    (apply_writes base ws data).length = data.length := by
  induction ws generalizing data with
  | nil => rfl
  | cons p rest ih =>
    show (apply_writes base rest (data.set (base + p.1) p.2)).length = data.length
    rw [ih]
    exact List.length_set data _ _

theorem emplace_back_op_length (stride : Nat) (ws : List (Nat × Nat)) (data : List Nat) :
    (emplace_back_op stride ws data).length = data.length + stride := by
  unfold emplace_back_op emplace_back_zeroed
  rw [apply_writes_length]
  simp

/-- C5. For every buffer under either storage policy, `bytes()` returns
a contiguous copy of exactly `byte_size()` bytes equal to the buffer's
logical byte image, and `assign_bytes` of that copy on a fresh buffer
succeeds and reproduces the buffer both as a byte image and as a sequence
of records.  (`pb` is the positive page size in bytes; the contiguous
policy runs the same chunked loops.  A buffer reachable through the public
operations always has `stride ∣ byte_size()`.) -/
theorem claim_C5 (stride pb : Nat) (data : List Nat) (hpb : 0 < pb)
    (hs : 0 < stride) (hwf : stride ∣ byte_size_op data) :
    bytes_op pb data = data ∧
    (bytes_op pb data).length = byte_size_op data ∧
    (assign_bytes_op stride pb (bytes_op pb data) clear_op).1 = .ok () ∧
    (assign_bytes_op stride pb (bytes_op pb data) clear_op).2 = data ∧
    size_op stride ((assign_bytes_op stride pb (bytes_op pb data) clear_op).2)
      = size_op stride data ∧
    ∀ i, ((assign_bytes_op stride pb (bytes_op pb data) clear_op).2.drop
        (i * stride)).take stride = (data.drop (i * stride)).take stride := by
  have hb : bytes_op pb data = data := bytes_chunks_eq pb (by omega) data
  have hmod : data.length % stride = 0 := (Nat.dvd_iff_mod_eq_zero).mp hwf
  have hcond : ¬ (stride = 0 ∨ (bytes_op pb data).length % stride ≠ 0) := by
    rw [hb]
    push_neg
    exact ⟨by omega, hmod⟩
  have hassign : assign_bytes_op stride pb (bytes_op pb data) clear_op
      = (.ok (), copy_chunks pb (bytes_op pb data)
          (resize_list clear_op (bytes_op pb data).length)) := by
    rw [assign_bytes_op, if_neg hcond]
  have hcopy : copy_chunks pb (bytes_op pb data)
      (resize_list clear_op (bytes_op pb data).length) = data := by
    rw [copy_chunks_eq pb (by omega) _ _ (resize_list_length _ _), hb]
  refine ⟨hb, by rw [hb]; rfl, by rw [hassign], by rw [hassign]; exact hcopy, ?_, ?_⟩
  · rw [hassign]
    simp only
    rw [hcopy]
  · intro i
    rw [hassign]
    simp only
    rw [hcopy]

/-- Witness for C5 on a concrete two-record buffer. -/
theorem claim_C5_witness :
    (0 < 6 ∧ 0 < 3 ∧ 3 ∣ byte_size_op [1, 2, 3, 4, 5, 6]) ∧
      bytes_op 6 [1, 2, 3, 4, 5, 6] = [1, 2, 3, 4, 5, 6] ∧
      (assign_bytes_op 3 6 (bytes_op 6 [1, 2, 3, 4, 5, 6]) clear_op).2
        = [1, 2, 3, 4, 5, 6] :=
  ⟨by decide,
   (claim_C5 3 6 [1, 2, 3, 4, 5, 6] (by decide) (by decide) (by decide)).1,
   (claim_C5 3 6 [1, 2, 3, 4, 5, 6] (by decide) (by decide) (by decide)).2.2.2.1⟩

/-- C6. For every schema and every `N ≥ 0`, after `N` `emplace_back`
calls on a fresh buffer `size() = N` and `byte_size() = N * stride`; each
`emplace_back` appends exactly `stride` bytes, all zero before the schema's
default-assignment runs; and `emplace_back`, `clear` and `assign_bytes` all
preserve the invariant `byte_size() = size() * stride`.  (`ws` is the
schema's default-assignment write sequence; it only stores field bytes in
place, so it never changes the length.) -/
theorem claim_C6 (stride : Nat) (ws : List (Nat × Nat)) (hs : 0 < stride) :
    (∀ N : Nat,
      size_op stride ((emplace_back_op stride ws)^[N] clear_op) = N ∧
      byte_size_op ((emplace_back_op stride ws)^[N] clear_op) = N * stride) ∧
    (∀ data : List Nat,
      (emplace_back_zeroed stride data).drop (byte_size_op data)
        = List.replicate stride 0 ∧
      byte_size_op (emplace_back_op stride ws data) = byte_size_op data + stride) ∧
    (∀ data : List Nat, byte_size_op data = size_op stride data * stride →
      byte_size_op (emplace_back_op stride ws data)
        = size_op stride (emplace_back_op stride ws data) * stride) ∧
    byte_size_op clear_op = size_op stride clear_op * stride ∧
    (∀ pb payload data, 0 < pb →
      byte_size_op data = size_op stride data * stride →
      byte_size_op (assign_bytes_op stride pb payload data).2
        = size_op stride (assign_bytes_op stride pb payload data).2 * stride) := by
  have hlen : ∀ data : List Nat,
      byte_size_op (emplace_back_op stride ws data) = byte_size_op data + stride :=
    fun data => emplace_back_op_length stride ws data
  have hsize : ∀ d : List Nat, stride ∣ d.length →
      byte_size_op d = size_op stride d * stride := by
    intro d hd
    simp only [byte_size_op, size_op, if_neg (by omega : ¬ stride = 0)]
    exact (Nat.div_mul_cancel hd).symm
  refine ⟨?_, ?_, ?_, ?_, ?_⟩
  · intro N
    induction N with
    | zero => constructor <;> simp [size_op, byte_size_op, clear_op]
    | succ N ih =>
      rw [Function.iterate_succ_apply']
      constructor
      · have h1 : byte_size_op ((emplace_back_op stride ws)
            ((emplace_back_op stride ws)^[N] clear_op)) = N * stride + stride := by
          rw [hlen, ih.2]
        simp only [byte_size_op] at h1
        simp only [size_op, if_neg (by omega : ¬ stride = 0), h1]
        rw [show N * stride + stride = (N + 1) * stride by ring]
        exact Nat.mul_div_cancel _ hs
      · rw [hlen, ih.2]
        ring
  · intro data
    refine ⟨?_, hlen data⟩
    unfold emplace_back_zeroed byte_size_op
    exact List.drop_left data _
  · intro data hinv
    apply hsize
    show stride ∣ byte_size_op (emplace_back_op stride ws data)
    rw [hlen]
    refine Nat.dvd_add ?_ dvd_rfl
    rw [hinv]
    exact Dvd.intro_left _ rfl
  · simp [byte_size_op, size_op, clear_op]
  · intro pb payload data hpb hinv
    by_cases hcond : stride = 0 ∨ payload.length % stride ≠ 0
    · rw [assign_bytes_op, if_pos hcond]
      exact hinv
    · rw [assign_bytes_op, if_neg hcond]
      push_neg at hcond
      simp only
      rw [copy_chunks_eq pb (by omega) _ _ (resize_list_length _ _)]
      exact hsize payload ((Nat.dvd_iff_mod_eq_zero).mpr hcond.2)

/-- Witness for C6 with a concrete stride and default-assignment. -/
theorem claim_C6_witness :
    (0 < 3 ∧ 0 < 2 ∧
      byte_size_op [7, 7, 7] = size_op 3 [7, 7, 7] * 3) ∧
      size_op 3 ((emplace_back_op 3 [(0, 5)])^[2] clear_op) = 2 ∧
      byte_size_op ((emplace_back_op 3 [(0, 5)])^[2] clear_op) = 2 * 3 ∧
      byte_size_op (assign_bytes_op 3 2 [1, 2, 3] [7, 7, 7]).2
        = size_op 3 (assign_bytes_op 3 2 [1, 2, 3] [7, 7, 7]).2 * 3 :=
  ⟨by decide,
   ((claim_C6 3 [(0, 5)] (by decide)).1 2).1,
   ((claim_C6 3 [(0, 5)] (by decide)).1 2).2,
   (claim_C6 3 [(0, 5)] (by decide)).2.2.2.2 2 [1, 2, 3] [7, 7, 7] (by decide)
     (by decide)⟩

/-- C7. `assign_bytes` returns `payload_size_mismatch` exactly when the
payload length is not a multiple of the record stride (the stride is
positive by `static_assert`); on that error the buffer's bytes — hence its
`size()` and `byte_size()` — are exactly as before the call; otherwise the
call succeeds, and no other error is ever returned. -/
theorem claim_C7 (stride pb : Nat) (payload data : List Nat) (hs : 0 < stride) :
    ((assign_bytes_op stride pb payload data).1 = .error .payload_size_mismatch
      ↔ payload.length % stride ≠ 0) ∧
    ((assign_bytes_op stride pb payload data).1 = .error .payload_size_mismatch →
      (assign_bytes_op stride pb payload data).2 = data) ∧
    (payload.length % stride = 0 →
      (assign_bytes_op stride pb payload data).1 = .ok ()) ∧
    (∀ e, (assign_bytes_op stride pb payload data).1 = .error e →
      e = .payload_size_mismatch) := by
  by_cases hcond : payload.length % stride ≠ 0
  · rw [assign_bytes_op, if_pos (Or.inr hcond)]
    exact ⟨⟨fun _ => hcond, fun _ => rfl⟩, fun _ => rfl,
      fun h => absurd h hcond, fun e he => by injection he with h; exact h.symm⟩
  · push_neg at hcond
    rw [assign_bytes_op, if_neg (by push_neg; exact ⟨by omega, hcond⟩)]
    exact ⟨⟨fun h => by injection h, fun h => absurd hcond h⟩,
      fun h => by injection h, fun _ => rfl, fun e he => by injection he⟩

/-- Lemma: `read_binary` refines the ordered validation contract: its result is the
error of the first failing check, success iff all pass. -/
theorem read_binary_fst_eq_contract (k_hash k_stride pb : Nat)
    (file : Option (List Nat)) (buf : List Nat) (hs : 0 < k_stride) :
    (read_binary k_hash k_stride pb file buf).1
      = read_binary_contract k_hash k_stride file := by
  match file with
  | none => rfl
  | some bytes =>
    simp only [read_binary, read_binary_contract, k_binary_header_size]
    have hmagic : (bytes.take 40).take 8 = bytes.take 8 := by
      rw [List.take_take]
      norm_num
    rw [hmagic]
    by_cases h1 : bytes.length < 40
    · simp only [if_pos h1]
    · simp only [if_neg h1]
      by_cases h2 : bytes.take 8 ≠ k_binary_magic
      · simp only [if_pos h2]
      · simp only [if_neg h2]
        by_cases h3 : load_le_u 8 ((bytes.take 40).drop 8) ≠ k_hash ∨
            load_le_u 8 ((bytes.take 40).drop 16) ≠ k_stride
        · simp only [if_pos h3]
        · simp only [if_neg h3]
          push_neg at h3
          obtain ⟨h3a, h3b⟩ := h3
          rw [h3b]
          by_cases h4 : load_le_u 8 ((bytes.take 40).drop 32)
              ≠ k_stride * load_le_u 8 ((bytes.take 40).drop 24) % 2 ^ 64
          · simp only [if_pos h4]
          · simp only [if_neg h4]
            by_cases h5 : (bytes.drop 40).length
                < load_le_u 8 ((bytes.take 40).drop 32)
            · simp only [if_pos h5]
            · simp only [if_neg h5]
              push_neg at h5
              have hplen : ((bytes.drop 40).take
                  (load_le_u 8 ((bytes.take 40).drop 32))).length
                  = load_le_u 8 ((bytes.take 40).drop 32) := by
                rw [List.length_take]
                omega
              by_cases h6 : load_le_u 8 ((bytes.take 40).drop 32) % k_stride ≠ 0
              · rw [assign_bytes_op, if_pos (Or.inr (by rw [hplen]; exact h6)),
                  if_pos h6]
              · push_neg at h6
                rw [assign_bytes_op,
                  if_neg (by push_neg; exact ⟨by omega, by rw [hplen]; exact h6⟩),
                  if_neg (by push_neg; exact h6)]

/-- C3. `read_binary` performs its checks in exactly the contract's
order — (1) file opens, (2) full 40-byte header read, (3) magic equals
`NSRDBIN1`, (4) fingerprint and stride equal the buffer's constants,
(5) `payload_size == stride * record_count` (64-bit product), (6) full
payload read, (7) payload a multiple of stride — and for every input file
returns the error of the first failing check (`open_failed`, `read_failed`,
`invalid_header`, `schema_mismatch`, `invalid_header`, `truncated_payload`,
`payload_size_mismatch` respectively), succeeding iff all checks pass. -/
theorem claim_C3 (k_hash k_stride pb : Nat) (file : Option (List Nat))
    (buf : List Nat) (hs : 0 < k_stride) :
    (read_binary k_hash k_stride pb file buf).1
      = read_binary_contract k_hash k_stride file :=
  read_binary_fst_eq_contract k_hash k_stride pb file buf hs

/-- Witness for C3 on a concrete well-formed file. -/
theorem claim_C3_witness :
    0 < 3 ∧
      (read_binary 0 3 4
          (some (k_binary_magic ++ store_le_u 8 0 ++ store_le_u 8 3 ++
            store_le_u 8 1 ++ store_le_u 8 3 ++ [9, 8, 7])) []).1
        = read_binary_contract 0 3
            (some (k_binary_magic ++ store_le_u 8 0 ++ store_le_u 8 3 ++
              store_le_u 8 1 ++ store_le_u 8 3 ++ [9, 8, 7])) :=
  ⟨by decide,
   claim_C3 0 3 4
     (some (k_binary_magic ++ store_le_u 8 0 ++ store_le_u 8 3 ++
       store_le_u 8 1 ++ store_le_u 8 3 ++ [9, 8, 7])) [] (by decide)⟩

/-- C10 counterexample. A file whose 64-bit `stride * record_count`
product overflows makes validation step (5) pass while the payload length is
not a multiple of the stride, so `read_binary` does return
`payload_size_mismatch`: stride 3, record count `(2^64 + 2) / 3 =
6148914691236517206`, payload size 2 — the wrapped product equals 2, the
2-byte payload reads fully, and the final `assign_bytes` rejects `2 % 3`. -/
theorem claim_C10_counterexample :
    (read_binary 0 3 4
        (some (k_binary_magic ++ store_le_u 8 0 ++ store_le_u 8 3 ++
          store_le_u 8 6148914691236517206 ++ store_le_u 8 2 ++ [0, 0])) []).1
      = .error .payload_size_mismatch :=
  rfl

/-- C10 (amended). `read_binary` never returns `payload_size_mismatch`
for a file whose 64-bit header product `stride * record_count` does not
overflow: step (5) then forces the payload size to be an exact multiple of
the (positive) stride, so the step-(7) branch is unreachable and the error
set is `{open_failed, read_failed, invalid_header, schema_mismatch,
truncated_payload}`. -/
theorem claim_C10 (k_hash k_stride pb : Nat) (file : Option (List Nat))
    (buf : List Nat) (hs : 0 < k_stride)
    (hnoov : ∀ bytes, file = some bytes →
      k_stride * load_le_u 8 ((bytes.take 40).drop 24) < 2 ^ 64) :
    (read_binary k_hash k_stride pb file buf).1 ≠ .error .payload_size_mismatch := by
  rw [read_binary_fst_eq_contract k_hash k_stride pb file buf hs]
  match file with
  | none => simp [read_binary_contract]
  | some bytes =>
    have hno := hnoov bytes rfl
    simp only [read_binary_contract]
    by_cases h1 : bytes.length < 40
    · simp only [if_pos h1]
      simp
    · simp only [if_neg h1]
      by_cases h2 : bytes.take 8 ≠ k_binary_magic
      · simp only [if_pos h2]
        simp
      · simp only [if_neg h2]
        by_cases h3 : load_le_u 8 ((bytes.take 40).drop 8) ≠ k_hash ∨
            load_le_u 8 ((bytes.take 40).drop 16) ≠ k_stride
        · simp only [if_pos h3]
          simp
        · simp only [if_neg h3]
          by_cases h4 : load_le_u 8 ((bytes.take 40).drop 32)
              ≠ k_stride * load_le_u 8 ((bytes.take 40).drop 24) % 2 ^ 64
          · simp only [if_pos h4]
            simp
          · simp only [if_neg h4]
            push_neg at h4
            by_cases h5 : (bytes.drop 40).length
                < load_le_u 8 ((bytes.take 40).drop 32)
            · simp only [if_pos h5]
              simp
            · simp only [if_neg h5]
              have hdvd : load_le_u 8 ((bytes.take 40).drop 32) % k_stride = 0 := by
                rw [h4, Nat.mod_eq_of_lt hno, Nat.mul_mod_right]
              have hcond : ¬ load_le_u 8 ((bytes.take 40).drop 32) % k_stride ≠ 0 := by
                push_neg
                exact hdvd
              simp only [if_neg hcond]
              simp

/-- Witness for the amended C10 on a concrete non-overflowing file. -/
theorem claim_C10_witness :
    0 < 3 ∧
      (read_binary 0 3 4
          (some (k_binary_magic ++ store_le_u 8 0 ++ store_le_u 8 3 ++
            store_le_u 8 2 ++ store_le_u 8 6 ++ [1, 2, 3, 4, 5, 6])) []).1
        ≠ .error .payload_size_mismatch :=
  ⟨by decide,
   claim_C10 0 3 4
     (some (k_binary_magic ++ store_le_u 8 0 ++ store_le_u 8 3 ++
       store_le_u 8 2 ++ store_le_u 8 6 ++ [1, 2, 3, 4, 5, 6])) [] (by decide)
     (by
       intro bytes h
       injection h with h2
       subst h2
       decide)⟩

/-- C2 counterexample. The claim requires every failing decode —
`read_binary` returning any error included — to leave the target buffer
cleared.  `read_binary` on a file that fails to open returns `open_failed`
and leaves a non-empty target buffer with its previous contents, not
cleared. -/
theorem claim_C2_counterexample :
    (read_binary 0 3 4 none [1, 2, 3]).1 = .error .open_failed ∧
      (read_binary 0 3 4 none [1, 2, 3]).2 = [1, 2, 3] ∧
      [1, 2, 3] ≠ ([] : List Nat) :=
  ⟨rfl, rfl, by decide⟩

/-- C2 (amended). Every failing bitsery stream decode leaves the target
buffer cleared (`size() == 0`, `byte_size() == 0`), never partially filled;
`read_binary`, by contrast, leaves the target buffer's bytes exactly as
before the call on every error path (so an initially empty target stays
empty, but a non-empty target keeps its previous contents). -/
theorem claim_C2 (k_hash k_stride pb : Nat) :
    (∀ input buf, (bitsery_decode k_hash k_stride input buf).1 = false →
      (bitsery_decode k_hash k_stride input buf).2 = []) ∧
    (∀ file buf e, (read_binary k_hash k_stride pb file buf).1 = .error e →
      (read_binary k_hash k_stride pb file buf).2 = buf) := by
  constructor
  · intro input buf
    simp only [bitsery_decode]
    by_cases h1 : input.length < 16
    · simp only [if_pos h1]
      intro _
      trivial
    · simp only [if_neg h1]
      by_cases h2 : load_le_u 8 (input.take 8) ≠ k_hash ∨
          load_le_u 8 ((input.drop 8).take 8) ≠ k_stride
      · simp only [if_pos h2]
        intro _
        trivial
      · simp only [if_neg h2]
        cases hh : read_bitsery_size_1b (input.drop 16) with
        | none =>
          simp only [hh]
          intro _
          trivial
        | some pr =>
          obtain ⟨ps, rest⟩ := pr
          simp only [hh]
          by_cases h3 : ps > k_bitsery_max_payload_bytes ∨ ps % k_stride ≠ 0
          · simp only [if_pos h3]
            intro _
            trivial
          · simp only [if_neg h3]
            by_cases h4 : rest.length < ps
            · simp only [if_pos h4]
              intro _
              trivial
            · simp only [if_neg h4]
              intro hfalse
              simp at hfalse
  · intro file buf e herr
    match file with
    | none => rfl
    | some bytes =>
      rw [read_binary, k_binary_header_size] at herr ⊢
      by_cases h1 : bytes.length < 40
      · simp only [if_pos h1]
      · simp only [if_neg h1] at herr ⊢
        by_cases h2 : (bytes.take 40).take 8 ≠ k_binary_magic
        · simp only [if_pos h2]
        · simp only [if_neg h2] at herr ⊢
          by_cases h3 : load_le_u 8 ((bytes.take 40).drop 8) ≠ k_hash ∨
              load_le_u 8 ((bytes.take 40).drop 16) ≠ k_stride
          · simp only [if_pos h3]
          · simp only [if_neg h3] at herr ⊢
            by_cases h4 : load_le_u 8 ((bytes.take 40).drop 32)
                ≠ load_le_u 8 ((bytes.take 40).drop 16)
                  * load_le_u 8 ((bytes.take 40).drop 24) % 2 ^ 64
            · simp only [if_pos h4]
            · simp only [if_neg h4] at herr ⊢
              by_cases h5 : (bytes.drop 40).length
                  < load_le_u 8 ((bytes.take 40).drop 32)
              · simp only [if_pos h5]
              · simp only [if_neg h5] at herr ⊢
                rw [assign_bytes_op] at herr ⊢
                by_cases h6 : k_stride = 0 ∨
                    ((bytes.drop 40).take
                      (load_le_u 8 ((bytes.take 40).drop 32))).length % k_stride ≠ 0
                · simp only [if_pos h6]
                · simp only [if_neg h6] at herr
                  exact absurd herr (by simp)

/-- Witness for the amended C2 at concrete failing decodes. -/
theorem claim_C2_witness :
    ((bitsery_decode 0 3 [] [5]).1 = false ∧
      (bitsery_decode 0 3 [] [5]).2 = []) ∧
      ((read_binary 0 3 4 none [5]).1 = .error .open_failed ∧
        (read_binary 0 3 4 none [5]).2 = [5]) :=
  ⟨⟨rfl, (claim_C2 0 3 4).1 [] [5] rfl⟩,
   ⟨rfl, (claim_C2 0 3 4).2 none [5] .open_failed rfl⟩⟩

/-- Witness for C7 at a concrete mismatching and matching payload. -/
theorem claim_C7_witness :
    (0 < 3 ∧
      ((assign_bytes_op 3 4 [1, 2] [9, 9, 9]).1 = .error .payload_size_mismatch
        ↔ [1, 2].length % 3 ≠ 0)) ∧
      (assign_bytes_op 3 4 [1, 2] [9, 9, 9]).2 = [9, 9, 9] ∧
      (assign_bytes_op 3 4 [1, 2, 3] [9, 9, 9]).1 = .ok () :=
  ⟨⟨by decide, (claim_C7 3 4 [1, 2] [9, 9, 9] (by decide)).1⟩,
   (claim_C7 3 4 [1, 2] [9, 9, 9] (by decide)).2.1 rfl,
   (claim_C7 3 4 [1, 2, 3] [9, 9, 9] (by decide)).2.2.1 (by decide)⟩

/-- Witness for C4 at concrete widths, values and offsets. -/
theorem claim_C4_witness :
    load_le_u 4 (store_le_u 4 0x12345678) = 0x12345678 ∧
    load_le_u 2 (List.drop 1 (write_at 1 (store_le_u 2 0xFFFE) [9, 9, 9, 9])) = 0xFFFE ∧
    to_signed 2 (load_le_u 2 (store_le_u 2 (to_unsigned 2 (-2)))) = -2 ∧
    load_le_bool (store_le_bool true) = true :=
  ⟨(claim_C4.1 4 0x12345678 (by norm_num)).1,
   claim_C4.2.1 2 0xFFFE 1 [9, 9, 9, 9] (by norm_num) (by norm_num),
   claim_C4.2.2.1 2 (-2) (by norm_num) (by norm_num) (by norm_num),
   claim_C4.2.2.2 true⟩

end Noserde
